import Mathlib

/-!
Verification of the real-time audio session pipeline of a voicebot service.

The development shallowly embeds the pipeline's pure core: byte buffers are
`List Nat` (one element per byte), 16-bit PCM samples are `List Int`, and the
per-session conversation context is a `List Exchange`.  Each definition is a
direct translation of the corresponding Python function; stateful code is
modelled by explicit state passing (the in-place mutation of the shared
connection table becomes an explicit heap of context lists, and the unmanaged
worker threads become an explicit interleaving of per-chunk action lists).
-/

/-- One conversation exchange, the dict with keys user and assistant appended
to a session's conversation context (app.py line 240). -/
structure Exchange where
  user : String
  assistant : String
deriving DecidableEq, Repr

/-- Context append (app.py lines 240-243): push the exchange at the end, then
pop the oldest entry whenever the length exceeds 5. -/
def appendExchange (context : List Exchange) (e : Exchange) : List Exchange :=
  let c := context ++ [e]
  if 5 < c.length then c.tail else c

/-- Frame aligner (utils.py, AudioUtils.process_audio_for_stt, lines 27-54):
empty input returns empty; a buffer whose length is not a multiple of
frame_size is right-padded with zero bytes to the next multiple.  frame_size
is the instance attribute self.frame_size, fixed to 320 in the constructor;
it is kept as a parameter here.  For a positive frame size the try/except
wrapper of the source can never fire, so it is not modelled. -/
def process_audio_for_stt (frame_size : Nat) (audio_data : List Nat) : List Nat :=
  if audio_data = [] then []
  else if audio_data.length % frame_size = 0 then audio_data
  else audio_data ++ List.replicate (frame_size - audio_data.length % frame_size) 0

/-- C6: the frame aligner is pure and total: its output length is a multiple
of the frame size, the output is the input followed only by zero bytes (never
truncated), aligned input is returned unchanged, and empty input yields empty
output.  The frame size is positive (the source fixes it to 320). -/
theorem c6_frame_aligner_contract (f : Nat) (b : List Nat) (hf : 0 < f) :
    (process_audio_for_stt f b).length % f = 0 ∧
    (∃ k, process_audio_for_stt f b = b ++ List.replicate k 0) ∧
    (b.length % f = 0 → process_audio_for_stt f b = b) ∧
    (b = [] → process_audio_for_stt f b = []) := by
  by_cases hb : b = []
  · subst hb
    exact ⟨by simp [process_audio_for_stt], ⟨0, by simp [process_audio_for_stt]⟩,
      fun _ => rfl, fun _ => rfl⟩
  · by_cases hm : b.length % f = 0
    · refine ⟨?_, ⟨0, ?_⟩, fun _ => ?_, fun h => absurd h hb⟩ <;>
        simp [process_audio_for_stt, hb, hm]
    · have hr : b.length % f < f := Nat.mod_lt _ hf
      have hr0 : 0 < b.length % f := Nat.pos_of_ne_zero hm
      have hlen : (process_audio_for_stt f b).length
          = b.length + (f - b.length % f) := by
        simp [process_audio_for_stt, hb, hm]
      refine ⟨?_, ⟨f - b.length % f, ?_⟩, fun h => absurd h hm, fun h => absurd h hb⟩
      · rw [hlen, Nat.add_mod, Nat.mod_eq_of_lt (by omega : f - b.length % f < f)]
        have hsum : b.length % f + (f - b.length % f) = f := by omega
        rw [hsum, Nat.mod_self]
      · simp [process_audio_for_stt, hb, hm]

/-- Witness for C6 at frame size 4 and buffer of 3 bytes. -/
theorem c6_frame_aligner_contract_witness :
    0 < 4 ∧
    ((process_audio_for_stt 4 [1, 2, 3]).length % 4 = 0 ∧
     (∃ k, process_audio_for_stt 4 [1, 2, 3] = [1, 2, 3] ++ List.replicate k 0) ∧
     (([1, 2, 3] : List Nat).length % 4 = 0 → process_audio_for_stt 4 [1, 2, 3] = [1, 2, 3]) ∧
     (([1, 2, 3] : List Nat) = [] → process_audio_for_stt 4 [1, 2, 3] = [])) :=
  ⟨by decide, c6_frame_aligner_contract 4 [1, 2, 3] (by decide)⟩

/-- Chunk extraction (app.py, process_audio_chunk, lines 180-207): on an empty
buffer return immediately; otherwise compute the largest multiple of 320 not
exceeding the buffer length, return without emitting when it is zero, and
otherwise emit that prefix as the chunk and keep the rest buffered.  The
first component is the emitted chunk (none when nothing is emitted), the
second the buffer that remains.  The final flag of the source only tags the
STT request spawned for the chunk (line 204) and plays no part in the
extraction, so it is not a parameter here. -/
def process_audio_chunk (audio_buffer : List Nat) : Option (List Nat) × List Nat :=
  if audio_buffer = [] then (none, audio_buffer)
  else
    let chunk_size := audio_buffer.length / 320 * 320
    if chunk_size = 0 then (none, audio_buffer)
    else (some (audio_buffer.take chunk_size), audio_buffer.drop chunk_size)

/-- Media ingest (app.py, handle_media, lines 146-169): an empty payload
returns early; otherwise the decoded bytes are appended to the session's
buffer, and once the buffer holds at least 3200 bytes a chunk is extracted
via process_audio_chunk. -/
def handle_media (audio_buffer : List Nat) (audio_data : List Nat) :
    Option (List Nat) × List Nat :=
  if audio_data = [] then (none, audio_buffer)
  else
    let buffer := audio_buffer ++ audio_data
    if 3200 ≤ buffer.length then process_audio_chunk buffer else (none, buffer)

/-- One ingest step over the accumulated (emitted chunks, buffer) state. -/
def ingestStep (acc : List (List Nat) × List Nat) (data : List Nat) :
    List (List Nat) × List Nat :=
  match handle_media acc.2 data with
  | (some c, rest) => (acc.1 ++ [c], rest)
  | (none, rest) => (acc.1, rest)

/-- A whole sequence of media ingests for one session, starting from the empty
buffer a fresh connection gets (app.py line 87): returns the emitted chunks in
order and the final buffered remainder. -/
def runIngests (datas : List (List Nat)) : List (List Nat) × List Nat :=
  datas.foldl ingestStep ([], [])

/-- The length of whatever process_audio_chunk emits plus the length of the
remaining buffer equals the length of the input buffer. -/
theorem process_audio_chunk_conserve (b : List Nat) :
    ((process_audio_chunk b).1.elim 0 List.length) + (process_audio_chunk b).2.length
      = b.length := by
  unfold process_audio_chunk
  split
  · simp
  · dsimp only
    split
    · simp
    · simp only [Option.elim, List.length_take, List.length_drop]
      omega

/-- Every chunk process_audio_chunk emits has length a multiple of 320. -/
theorem process_audio_chunk_mod (b c : List Nat)
    (h : (process_audio_chunk b).1 = some c) : c.length % 320 = 0 := by
  unfold process_audio_chunk at h
  split at h
  · simp at h
  · dsimp only at h
    split at h
    · simp at h
    · simp only [Option.some.injEq] at h
      subst h
      simp only [List.length_take]
      omega

/-- Conservation for a single media ingest. -/
theorem handle_media_conserve (buf data : List Nat) :
    ((handle_media buf data).1.elim 0 List.length) + (handle_media buf data).2.length
      = buf.length + data.length := by
  unfold handle_media
  split
  · simp_all
  · dsimp only
    split
    · have := process_audio_chunk_conserve (buf ++ data)
      simpa using this
    · simp

/-- Every chunk a media ingest emits has length a multiple of 320. -/
theorem handle_media_mod (buf data c : List Nat)
    (h : (handle_media buf data).1 = some c) : c.length % 320 = 0 := by
  unfold handle_media at h
  split at h
  · simp at h
  · dsimp only at h
    split at h
    · exact process_audio_chunk_mod _ _ h
    · simp at h

/-- Folding ingest steps conserves bytes, for any starting state. -/
theorem foldl_ingestStep_conserve (datas : List (List Nat)) :
    ∀ acc : List (List Nat) × List Nat,
      (((datas.foldl ingestStep acc).1.map List.length).sum
          + (datas.foldl ingestStep acc).2.length)
        = ((acc.1.map List.length).sum + acc.2.length) + (datas.map List.length).sum := by
  induction datas with
  | nil => intro acc; simp
  | cons d ds ih =>
    intro acc
    rw [List.foldl_cons, ih]
    have hc := handle_media_conserve acc.2 d
    unfold ingestStep
    rcases hm : handle_media acc.2 d with ⟨o, rest⟩
    rw [hm] at hc
    cases o with
    | none => simp at hc; simp [hc]; omega
    | some c => simp at hc; simp; omega

/-- Folding ingest steps only ever emits frame-aligned chunks. -/
theorem foldl_ingestStep_mod (datas : List (List Nat)) :
    ∀ acc : List (List Nat) × List Nat,
      (∀ c ∈ acc.1, c.length % 320 = 0) →
      ∀ c ∈ (datas.foldl ingestStep acc).1, c.length % 320 = 0 := by
  induction datas with
  | nil => intro acc h; simpa using h
  | cons d ds ih =>
    intro acc h
    rw [List.foldl_cons]
    apply ih
    unfold ingestStep
    rcases hm : handle_media acc.2 d with ⟨o, rest⟩
    cases o with
    | none => simpa using h
    | some c =>
      intro x hx
      simp only [List.mem_append, List.mem_singleton] at hx
      rcases hx with hx | hx
      · exact h x hx
      · subst hx
        exact handle_media_mod acc.2 d x (by rw [hm])

/-- C5: whenever an ingest brings the buffer to at least 3200 bytes, the
largest frame-aligned prefix (at least 3200 bytes long) is removed and
emitted as one chunk and the remainder left buffered is shorter than 320
bytes; over any whole ingest sequence, emitted chunk lengths plus the final
remainder sum to the total bytes ingested, and every emitted chunk is
frame-aligned. -/
theorem c5_aggregator_contract (datas : List (List Nat)) (buf data : List Nat) :
    (data ≠ [] → 3200 ≤ buf.length + data.length →
      handle_media buf data =
        (some ((buf ++ data).take ((buf.length + data.length) / 320 * 320)),
         (buf ++ data).drop ((buf.length + data.length) / 320 * 320)) ∧
      3200 ≤ (buf.length + data.length) / 320 * 320 ∧
      ((buf.length + data.length) / 320 * 320) % 320 = 0 ∧
      (∀ m, m ≤ buf.length + data.length → m % 320 = 0 →
        m ≤ (buf.length + data.length) / 320 * 320) ∧
      ((buf ++ data).drop ((buf.length + data.length) / 320 * 320)).length < 320) ∧
    (∀ c ∈ (runIngests datas).1, c.length % 320 = 0) ∧
    ((runIngests datas).1.map List.length).sum + (runIngests datas).2.length
      = (datas.map List.length).sum := by
  refine ⟨fun hd hlen => ?_, ?_, ?_⟩
  · have hL : (buf ++ data).length = buf.length + data.length := List.length_append _ _
    have hne : buf ++ data ≠ [] := by
      intro h0
      rw [h0] at hL
      simp at hL
      omega
    have hcs : ¬((buf.length + data.length) / 320 * 320 = 0) := by omega
    refine ⟨?_, by omega, by omega, fun m h1 h2 => by omega, ?_⟩
    · unfold handle_media process_audio_chunk
      rw [if_neg hd]
      dsimp only
      rw [hL, if_pos hlen, if_neg hne, if_neg hcs]
    · rw [List.length_drop, hL]
      omega
  · exact foldl_ingestStep_mod datas ([], []) (by simp)
  · have h := foldl_ingestStep_conserve datas ([], [])
    simpa [runIngests] using h

/-- Witness for C5: a 3200-byte ingest into an empty buffer crosses the
threshold and leaves a remainder shorter than one frame. -/
theorem c5_aggregator_contract_witness :
    (List.replicate 3200 1 : List Nat) ≠ [] ∧
    3200 ≤ ([] : List Nat).length + (List.replicate 3200 1 : List Nat).length ∧
    3200 ≤ (([] : List Nat).length + (List.replicate 3200 1 : List Nat).length) / 320 * 320 ∧
    ((([] : List Nat) ++ List.replicate 3200 1).drop
        ((([] : List Nat).length + (List.replicate 3200 1 : List Nat).length)
          / 320 * 320)).length < 320 := by
  have hl : 3200 ≤ ([] : List Nat).length + (List.replicate 3200 1 : List Nat).length := by
    simp only [List.length_nil, List.length_replicate]
    omega
  have h := (c5_aggregator_contract [] [] (List.replicate 3200 1)).1
    (by simp only [ne_eq, List.replicate_eq_nil_iff]; omega) hl
  exact ⟨by simp only [ne_eq, List.replicate_eq_nil_iff]; omega, hl, h.2.1, h.2.2.2.2⟩

/-- One context append, viewed as keeping the last five entries of the
extended list. -/
theorem appendExchange_eq_drop (ctx : List Exchange) (e : Exchange)
    (h : ctx.length ≤ 5) :
    appendExchange ctx e = (ctx ++ [e]).drop ((ctx ++ [e]).length - 5) := by
  unfold appendExchange
  dsimp only
  split
  · rename_i hgt
    have hlen : (ctx ++ [e]).length - 5 = 1 := by
      simp only [List.length_append, List.length_singleton] at hgt ⊢
      omega
    rw [hlen, List.drop_one]
  · rename_i hle
    have hlen : (ctx ++ [e]).length - 5 = 0 := by
      simp only [List.length_append, List.length_singleton] at hle ⊢
      omega
    rw [hlen, List.drop_zero]

/-- Replaying context appends from any state holding at most five exchanges
yields exactly the last five entries of the accumulated history. -/
theorem foldl_appendExchange (es : List Exchange) :
    ∀ ctx : List Exchange, ctx.length ≤ 5 →
      List.foldl appendExchange ctx es = (ctx ++ es).drop ((ctx ++ es).length - 5) := by
  induction es with
  | nil =>
    intro ctx h
    simp only [List.foldl_nil, List.append_nil]
    rw [show ctx.length - 5 = 0 by omega, List.drop_zero]
  | cons e tl ih =>
    intro ctx h
    rw [List.foldl_cons]
    have h1 : (appendExchange ctx e).length ≤ 5 := by
      rw [appendExchange_eq_drop ctx e h, List.length_drop]
      omega
    rw [ih (appendExchange ctx e) h1, appendExchange_eq_drop ctx e h]
    have hd : (ctx ++ [e]).length - 5 ≤ (ctx ++ [e]).length := Nat.sub_le _ _
    rw [← List.drop_append_of_le_length hd, List.drop_drop]
    have hassoc : ctx ++ e :: tl = (ctx ++ [e]) ++ tl := by simp
    rw [hassoc]
    congr 1
    simp only [List.length_append, List.length_drop, List.length_singleton,
      List.length_cons]
    omega

/-- C7: the conversation context never exceeds five exchanges and keeps them
in chronological order: replaying any history of appends onto a context of at
most five exchanges yields the last five entries of the accumulated history
(oldest evicted first), and after more than five appends from an empty
context exactly the last five remain, oldest first. -/
theorem c7_context_store_bound (ctx es : List Exchange) (h : ctx.length ≤ 5) :
    List.foldl appendExchange ctx es = (ctx ++ es).drop ((ctx ++ es).length - 5) ∧
    (List.foldl appendExchange ctx es).length ≤ 5 ∧
    (5 < es.length → List.foldl appendExchange [] es = es.drop (es.length - 5)) := by
  have hmain := foldl_appendExchange es ctx h
  refine ⟨hmain, ?_, fun _ => ?_⟩
  · rw [hmain, List.length_drop]
    omega
  · have h0 := foldl_appendExchange es [] (by simp)
    simpa using h0

/-- A concrete six-exchange history used to exercise the context bound. -/
def sixExchanges : List Exchange :=
  [⟨"u1", "a1"⟩, ⟨"u2", "a2"⟩, ⟨"u3", "a3"⟩,
   ⟨"u4", "a4"⟩, ⟨"u5", "a5"⟩, ⟨"u6", "a6"⟩]

/-- Witness for C7: six appends from an empty context keep the last five. -/
theorem c7_context_store_bound_witness :
    ([] : List Exchange).length ≤ 5 ∧
    5 < sixExchanges.length ∧
    List.foldl appendExchange [] sixExchanges
      = sixExchanges.drop (sixExchanges.length - 5) :=
  ⟨by decide, by decide,
    (c7_context_store_bound [] sixExchanges (by decide)).2.2 (by decide)⟩

/-- Stream stop (app.py, handle_stop, lines 171-178): mark the stream
inactive, then, if any audio is still buffered, run one final
process_audio_chunk pass over it (the final flag only tags the STT request).
The stream-active flag does not affect the buffer, so the state here is the
buffer alone. -/
def handle_stop (audio_buffer : List Nat) : Option (List Nat) × List Nat :=
  if audio_buffer ≠ [] then process_audio_chunk audio_buffer
  else (none, audio_buffer)

/-- C2 (code bug evaluation): a stop event with 100 buffered bytes emits no
final chunk at all — the 100 bytes stay in the buffer unprocessed, instead of
being zero-padded to one 320-byte chunk as specified. -/
theorem c2_stop_flush_drops_subframe_tail :
    handle_stop (List.replicate 100 7) = (none, List.replicate 100 7) ∧
    (handle_stop (List.replicate 100 7)).1 = none := by
  constructor <;> decide

/-- Reading a session's conversation context through the process-wide
connection table (app.py line 231): active_connections is modelled as a list
of per-connection context lists indexed by connection id, and the binding
`context = active_connections[connection_id]['conversation_context']` is a
reference into that table, so every read through it resolves against the
table's current state. -/
def readContext (connections : List (List Exchange)) (connection_id : Nat) :
    List Exchange :=
  connections.getD connection_id []

/-- In-place context update (app.py lines 240-243): `context.append(...)` plus
the pop-oldest trim mutate the very list stored in the connection table, so
the table entry for the session is replaced by its appended form. -/
def heapAppendExchange (connections : List (List Exchange)) (connection_id : Nat)
    (e : Exchange) : List (List Exchange) :=
  connections.set connection_id (appendExchange (readContext connections connection_id) e)

/-- Setting an in-range entry changes what getD returns at that index. -/
theorem getD_set_self {α : Type} :
    ∀ (l : List α) (i : Nat) (a d : α), i < l.length → (l.set i a).getD i d = a
  | _ :: _, 0, _, _, _ => rfl
  | _ :: xs, i + 1, a, d, h => getD_set_self xs i a d (by simpa using h)

/-- C4 counterexample: the context snapshot taken for reply generation is not
copy-independent of later mutation.  With one session holding an empty
context, appending an exchange after the snapshot reference is taken changes
the sequence of exchanges a read through that reference yields. -/
theorem c4_snapshot_live_view_counterexample :
    readContext (heapAppendExchange [[]] 0 ⟨"hello", "reply"⟩) 0
      ≠ readContext [[]] 0 := by
  decide

/-- C4 amended: the snapshot is a live reference, not a copy.  A read through
it yields the session's context as mutated: after appending an exchange to a
registered session, reading through the reference returns the appended
context, not the context as of snapshot time. -/
theorem c4_snapshot_is_live_view (connections : List (List Exchange))
    (connection_id : Nat) (e : Exchange) (h : connection_id < connections.length) :
    readContext (heapAppendExchange connections connection_id e) connection_id
      = appendExchange (readContext connections connection_id) e := by
  unfold readContext heapAppendExchange
  exact getD_set_self _ _ _ _ h

/-- Witness for C4 amended at a concrete two-session table. -/
theorem c4_snapshot_is_live_view_witness :
    1 < ([[], []] : List (List Exchange)).length ∧
    readContext (heapAppendExchange [[], []] 1 ⟨"u", "r"⟩) 1
      = appendExchange (readContext [[], []] 1) ⟨"u", "r"⟩ :=
  ⟨by decide, c4_snapshot_is_live_view [[], []] 1 ⟨"u", "r"⟩ (by decide)⟩

/-- Outcome of the HTTP request that GeminiClient.get_response performs
(gemini_client.py lines 114-156): a 200 response carrying a candidate text
(already stripped, as the source strips it on line 129), a 200 response with
an empty stripped text, a 200 response with a malformed candidate structure,
a 200 response with no candidates, a non-200 status, a timeout, another
request error, or any other exception. -/
inductive GeminiOutcome where
  | candidateText (text : String)
  | emptyCandidateText
  | badStructure
  | noCandidates
  | httpError (status : Nat)
  | timeout
  | requestError
  | otherError
deriving DecidableEq, Repr

/-- GeminiClient.get_response result (gemini_client.py lines 122-156): a
nonempty candidate text is returned as-is; every other path — including API
error, timeout and connection failure — returns a fixed Malayalam fallback
message.  The declared Optional return ('None if error' per the docstring)
never actually carries None. -/
def get_response (outcome : GeminiOutcome) : Option String :=
  match outcome with
  | .candidateText t => some t
  | .emptyCandidateText =>
      some "ക്ഷമിക്കണം, എനിക്ക് മറുപടി നൽകാൻ കഴിഞ്ഞില്ല. വീണ്ടും ചോദിക്കാമോ?"
  | .badStructure => some "ക്ഷമിക്കണം, എന്തോ പ്രശ്നം സംഭവിച്ചു."
  | .noCandidates => some "ക്ഷമിക്കണം, എനിക്ക് മറുപടി നൽകാൻ കഴിഞ്ഞില്ല."
  | .httpError _ => some "ക്ഷമിക്കണം, സേവനത്തിൽ പ്രശ്നം സംഭവിച്ചു."
  | .timeout => some "ക്ഷമിക്കണം, പ്രതികരണം വൈകി. വീണ്ടും ശ്രമിക്കാമോ?"
  | .requestError => some "ക്ഷമിക്കണം, കണക്ഷൻ പ്രശ്നം സംഭവിച്ചു."
  | .otherError => some "ക്ഷമിക്കണം, എന്തോ പ്രശ്നം സംഭവിച്ചു."

/-- Reply handling for one transcript (app.py, process_gemini_response, lines
224-249): call get_response; when it returns a truthy (non-None, nonempty)
text, append the exchange to the session's context (with the length-5 trim)
and invoke send_tts_response.  The returned pair is the session context after
the call and whether a reply was handed to text-to-speech for delivery. -/
def process_gemini_response (context : List Exchange) (user_text : String)
    (outcome : GeminiOutcome) : List Exchange × Bool :=
  match get_response outcome with
  | some response_text =>
      if response_text = "" then (context, false)
      else (appendExchange context ⟨user_text, response_text⟩, true)
  | none => (context, false)

/-- C1 (code bug evaluation): when the reply-generation request times out,
the pipeline does not stop.  get_response returns a fallback apology string,
so the caller appends a new exchange to the session context and sends the
apology to text-to-speech — the context is mutated and reply audio is
delivered, contrary to the stop-on-failure contract. -/
theorem c1_generateReply_failure_sends_fallback :
    process_gemini_response [] "നമസ്കാരം" GeminiOutcome.timeout
      = ([⟨"നമസ്കാരം", "ക്ഷമിക്കണം, പ്രതികരണം വൈകി. വീണ്ടും ശ്രമിക്കാമോ?"⟩], true) ∧
    (process_gemini_response [] "നമസ്കാരം" GeminiOutcome.timeout).1 ≠ [] ∧
    (process_gemini_response [] "നമസ്കാരം" GeminiOutcome.timeout).2 = true := by
  refine ⟨?_, ?_, ?_⟩ <;> decide

/-- Outcome of the HTTP request SarvamClient.speech_to_text performs
(sarvam_client.py lines 167-185): a 200 response carrying the raw transcript
field, a non-200 status, or an exception raised anywhere in the call. -/
inductive SttOutcome where
  | success (raw_transcript : String)
  | httpError (status : Nat)
  | exception
deriving DecidableEq, Repr

/-- SarvamClient.speech_to_text result (sarvam_client.py lines 175-185): on a
200 response the transcript field is stripped and returned, or None when the
stripped transcript is empty; every error path returns None. -/
def speech_to_text (outcome : SttOutcome) : Option String :=
  match outcome with
  | .success raw_transcript =>
      let transcript := raw_transcript.trim
      if transcript = "" then none else some transcript
  | .httpError _ => none
  | .exception => none

/-- STT stage gate (app.py, process_stt, lines 209-222): the transcript is
forwarded to the reply-generation thread only when it is truthy and its
stripped form is truthy; otherwise the chunk's pipeline run ends here. -/
def process_stt (outcome : SttOutcome) : Option String :=
  match speech_to_text outcome with
  | some transcript =>
      if transcript = "" then none
      else if transcript.trim = "" then none
      else some transcript
  | none => none

/-- The backend operations a chunk's pipeline can invoke downstream of the
transcription call. -/
inductive BackendCall where
  | transcribe
  | generateReply
  | synthesize
  | send
deriving DecidableEq, Repr

/-- Trace of backend calls for one chunk (app.py lines 209-295): transcription
always runs; everything after it — reply generation, synthesis, outbound
sends — runs only inside the thread spawned when the transcript gate passes,
here abstracted as an arbitrary downstream continuation. -/
def chunkPipelineTrace (outcome : SttOutcome)
    (downstream : String → List BackendCall) : List BackendCall :=
  BackendCall.transcribe ::
    (match process_stt outcome with
     | some transcript => downstream transcript
     | none => [])

/-- C8: when the transcription call fails (non-200 status or exception) or
returns text that is empty after stripping, the chunk's pipeline stops at the
gate: whatever the downstream stages would do, the trace holds only the
transcription call — reply generation and synthesis are never invoked and no
outbound frames are sent. -/
theorem c8_stt_gate (outcome : SttOutcome)
    (downstream : String → List BackendCall)
    (h : outcome = SttOutcome.exception ∨
         (∃ status, outcome = SttOutcome.httpError status) ∨
         (∃ raw, outcome = SttOutcome.success raw ∧ raw.trim = "")) :
    chunkPipelineTrace outcome downstream = [BackendCall.transcribe] ∧
    process_stt outcome = none ∧
    BackendCall.generateReply ∉ chunkPipelineTrace outcome downstream ∧
    BackendCall.synthesize ∉ chunkPipelineTrace outcome downstream ∧
    BackendCall.send ∉ chunkPipelineTrace outcome downstream := by
  have hstt : process_stt outcome = none := by
    rcases h with h | ⟨status, h⟩ | ⟨raw, h, hraw⟩ <;> subst h <;>
      simp [process_stt, speech_to_text, *]
  have htrace : chunkPipelineTrace outcome downstream = [BackendCall.transcribe] := by
    unfold chunkPipelineTrace
    rw [hstt]
  refine ⟨htrace, hstt, ?_, ?_, ?_⟩ <;> rw [htrace] <;> decide

/-- Witness for C8: an exception inside the STT call stops the chunk's run
even when the downstream continuation would call every later stage. -/
theorem c8_stt_gate_witness :
    (SttOutcome.exception = SttOutcome.exception ∨
     (∃ status, SttOutcome.exception = SttOutcome.httpError status) ∨
     (∃ raw, SttOutcome.exception = SttOutcome.success raw ∧ raw.trim = "")) ∧
    chunkPipelineTrace SttOutcome.exception
        (fun _ => [BackendCall.generateReply, BackendCall.synthesize, BackendCall.send])
      = [BackendCall.transcribe] :=
  ⟨Or.inl rfl,
    (c8_stt_gate SttOutcome.exception
      (fun _ => [BackendCall.generateReply, BackendCall.synthesize, BackendCall.send])
      (Or.inl rfl)).1⟩

/-- Pairwise averaging of consecutive 16-bit samples (utils.py lines 84-85):
numpy reshapes the sample array to pairs and takes the row mean, and
astype(int16) truncates the exact half-sum toward zero, which is Int.tdiv of
the sum by two.  Sample sums of two in-range int16 values cannot overflow the
float mean, so no wrap-around occurs. -/
def avgPairs : List Int → List Int
  | a :: b :: rest => Int.tdiv (a + b) 2 :: avgPairs rest
  | _ => []

/-- avgPairs halves the sample count (rounding down on a trailing sample,
which only the unreachable odd case would have). -/
theorem avgPairs_length : ∀ l : List Int, (avgPairs l).length = l.length / 2
  | [] => rfl
  | [_] => by simp [avgPairs]
  | _ :: _ :: r => by
    simp only [avgPairs, List.length_cons, avgPairs_length r]
    omega

/-- Playback normalization (utils.py, AudioUtils.process_audio_for_playback,
lines 56-105) on a non-WAV PCM input, stated over its 16-bit samples: empty
input returns empty; when the sample count is even the array is reshaped to
pairs and averaged to mono (the reshape of an even-length array never fails,
so the except branch is dead); an odd sample count is left as-is; finally the
byte stream is zero-padded to a 320-byte frame boundary, which at two bytes
per sample pads with zero samples to a multiple of 160 samples.  The
WAV-extraction branch does not apply to non-WAV input and the sample-rate
resampling branch is a no-op in the source. -/
def process_audio_for_playback (audio_data : List Int) : List Int :=
  if audio_data = [] then []
  else
    let audio_array := if audio_data.length % 2 = 0 then avgPairs audio_data else audio_data
    if (2 * audio_array.length) % 320 = 0 then audio_array
    else audio_array ++ List.replicate ((320 - (2 * audio_array.length) % 320) / 2) 0

/-- C9: the playback normalizer keys its stereo-to-mono heuristic on sample
count parity alone: an even sample count gets consecutive pairs averaged
(halving the count) before frame alignment, whatever the true channel
layout, while an odd sample count passes through unaveraged; pair averaging
is the truncated mean of each consecutive pair. -/
theorem c9_playback_parity_heuristic (s : List Int) :
    (s.length % 2 = 0 →
      (∃ k, process_audio_for_playback s = avgPairs s ++ List.replicate k 0) ∧
      (avgPairs s).length = s.length / 2) ∧
    (s.length % 2 ≠ 0 →
      ∃ k, process_audio_for_playback s = s ++ List.replicate k 0) ∧
    (∀ a b rest, avgPairs (a :: b :: rest) = Int.tdiv (a + b) 2 :: avgPairs rest) := by
  refine ⟨fun heven => ⟨?_, avgPairs_length s⟩, fun hodd => ?_, fun a b rest => rfl⟩
  · by_cases hs : s = []
    · subst hs
      exact ⟨0, by simp [process_audio_for_playback, avgPairs]⟩
    · unfold process_audio_for_playback
      rw [if_neg hs, if_pos heven]
      dsimp only
      split
      · exact ⟨0, by simp⟩
      · exact ⟨_, rfl⟩
  · have hs : s ≠ [] := by
      intro h0
      subst h0
      simp at hodd
    unfold process_audio_for_playback
    rw [if_neg hs, if_neg hodd]
    dsimp only
    split
    · exact ⟨0, by simp⟩
    · exact ⟨_, rfl⟩

/-- Witness for C9 on a concrete four-sample (even) input. -/
theorem c9_playback_parity_heuristic_witness :
    ([1, 3, 5, 6] : List Int).length % 2 = 0 ∧
    ((∃ k, process_audio_for_playback [1, 3, 5, 6]
        = avgPairs [1, 3, 5, 6] ++ List.replicate k 0) ∧
     (avgPairs [1, 3, 5, 6]).length = ([1, 3, 5, 6] : List Int).length / 2) :=
  ⟨by decide, (c9_playback_parity_heuristic [1, 3, 5, 6]).1 (by decide)⟩

/-- One message of the conversational backend request: a role and the text of
its single part (gemini_client.py lines 57-82). -/
structure GeminiMessage where
  role : String
  text : String
deriving DecidableEq, Repr

/-- The fixed Malayalam system prompt of GeminiClient (gemini_client.py lines
20-39), abridged here to its opening line; only its identity matters to the
request layout. -/
def system_prompt : String :=
  "നിങ്ങൾ ഒരു സഹായകനായ AI അസിസ്റ്റന്റ് ആണ്. നിങ്ങൾ മലയാളത്തിൽ സംസാരിക്കുകയും ഉപയോക്താക്കളെ സഹായിക്കുകയും ചെയ്യും."

/-- The fixed model acknowledgement paired with the system prompt
(gemini_client.py lines 61-64). -/
def gemini_ack : String := "മനസ്സിലായി. ഞാൻ മലയാളത്തിൽ സഹായകമായി മറുപടി നൽകും."

/-- Python slice l[-n:]: the last n elements (all of them when fewer). -/
def pySliceLast {α : Type} (n : Nat) (l : List α) : List α :=
  l.drop (l.length - n)

/-- The two request messages contributed by one stored exchange
(gemini_client.py lines 68-76). -/
def exchangeMessages (exchange : Exchange) : List GeminiMessage :=
  [⟨"user", exchange.user⟩, ⟨"model", exchange.assistant⟩]

/-- Request contents built by GeminiClient.get_response (gemini_client.py
lines 52-82): the system prompt and its acknowledgement, then — when the
context is non-empty — the messages of the exchanges in context[-3:], then
the current user input. -/
def build_messages (user_input : String) (context : List Exchange) :
    List GeminiMessage :=
  let messages : List GeminiMessage := [⟨"user", system_prompt⟩, ⟨"model", gemini_ack⟩]
  let messages :=
    if context = [] then messages
    else messages ++ (pySliceLast 3 context).flatMap exchangeMessages
  messages ++ [⟨"user", user_input⟩]

/-- C10: the request sent to the conversational backend carries only the last
min(n, 3) stored exchanges, in chronological order, although the session
stores up to five: the built contents are the two fixed preamble messages,
then the messages of the kept suffix of the context, then the user input;
the kept part is a suffix of the stored context of length min(n, 3). -/
theorem c10_last_three_context (user_input : String) (context : List Exchange) :
    build_messages user_input context
      = [⟨"user", system_prompt⟩, ⟨"model", gemini_ack⟩]
          ++ (pySliceLast 3 context).flatMap exchangeMessages
          ++ [⟨"user", user_input⟩] ∧
    (pySliceLast 3 context).length = min context.length 3 ∧
    context.take (context.length - 3) ++ pySliceLast 3 context = context := by
  refine ⟨?_, ?_, ?_⟩
  · unfold build_messages
    dsimp only
    split
    · rename_i hnil
      subst hnil
      simp [pySliceLast]
    · rfl
  · unfold pySliceLast
    rw [List.length_drop]
    omega
  · exact List.take_append_drop _ _

/-- The observable steps of one chunk's pipeline thread (app.py lines
200-295): the Sarvam transcription request, the Gemini reply request, the
Sarvam synthesis request, and enqueueing the reply audio on the session's
WebSocket. -/
inductive PipeAction where
  | transcribeCall (chunk : Nat)
  | generateCall (chunk : Nat)
  | synthesizeCall (chunk : Nat)
  | enqueueSend (chunk : Nat)
deriving DecidableEq, Repr

/-- The thread spawned for one chunk (app.py line 204 spawns process_stt,
line 219 spawns process_gemini_response, which calls send_tts_response at
line 246): its steps run in this internal order, with no synchronization
against any other chunk's thread. -/
def chunkThread (chunk : Nat) : List PipeAction :=
  [.transcribeCall chunk, .generateCall chunk, .synthesizeCall chunk, .enqueueSend chunk]

/-- Interleaving of two unsynchronized threads under an OS schedule: each
Bool picks which thread performs its next pending step (a pick for an
exhausted thread is skipped); after the schedule runs out the remaining steps
of both threads complete in any case, modelled left thread first. -/
def mergeThreads : List Bool → List PipeAction → List PipeAction → List PipeAction
  | [], xs, ys => xs ++ ys
  | true :: s, x :: xs, ys => x :: mergeThreads s xs ys
  | true :: s, [], ys => mergeThreads s [] ys
  | false :: s, xs, y :: ys => y :: mergeThreads s xs ys
  | false :: s, xs, [] => mergeThreads s xs []

/-- Execution of a session that received chunks 1 and 2 in that order, under
a given schedule of the two spawned threads. -/
def twoChunkExecution (schedule : List Bool) : List PipeAction :=
  mergeThreads schedule (chunkThread 1) (chunkThread 2)

/-- The order in which the two replies are enqueued for transport. -/
def deliveryOrder (schedule : List Bool) : List Nat :=
  (twoChunkExecution schedule).filterMap
    (fun a => match a with
      | .enqueueSend c => some c
      | _ => none)

/-- C3 counterexample: under the schedule that runs chunk 2's thread to
completion first — exactly the case where chunk 1's backend calls finish
after chunk 2's — chunk 2's reply is enqueued before chunk 1's, so the
delivery for chunk 1 is not enqueued before chunk 2's begins. -/
theorem c3_delivery_order_counterexample :
    deliveryOrder (List.replicate 4 false ++ List.replicate 4 true) = [2, 1] ∧
    deliveryOrder (List.replicate 4 false ++ List.replicate 4 true) ≠ [1, 2] := by
  constructor <;> decide

/-- Any interleaving is a permutation of the two threads' steps. -/
theorem mergeThreads_perm :
    ∀ (s : List Bool) (xs ys : List PipeAction),
      List.Perm (mergeThreads s xs ys) (xs ++ ys) := by
  intro s
  induction s with
  | nil => intro xs ys; exact List.Perm.refl _
  | cons b s ih =>
    intro xs ys
    cases b with
    | true =>
      cases xs with
      | nil => simpa using ih [] ys
      | cons x xs => exact (ih xs ys).cons x
    | false =>
      cases ys with
      | nil => simpa using ih xs []
      | cons y ys => exact ((ih xs ys).cons y).trans List.perm_middle.symm

/-- C3 amended: the per-chunk pipelines are unsynchronized threads, so the
implementation does not serialize outbound delivery per session.  Each
chunk's reply is enqueued exactly once in every execution, but the order
depends on the schedule: both the submission order and the reversed order
are reachable. -/
theorem c3_delivery_order_unserialized :
    (∀ schedule, List.Perm (deliveryOrder schedule) [1, 2]) ∧
    (∃ schedule, deliveryOrder schedule = [1, 2]) ∧
    (∃ schedule, deliveryOrder schedule = [2, 1]) := by
  refine ⟨fun schedule => ?_, ⟨List.replicate 4 true ++ List.replicate 4 false, by decide⟩,
    ⟨List.replicate 4 false ++ List.replicate 4 true, by decide⟩⟩
  have hperm := mergeThreads_perm schedule (chunkThread 1) (chunkThread 2)
  have h := hperm.filterMap
    (fun a => match a with
      | PipeAction.enqueueSend c => some c
      | _ => none)
  unfold deliveryOrder twoChunkExecution
  simpa [chunkThread] using h
